import Mathlib

/-!
Shallow embedding of the grid-trading simulation engine and its two
bisection solvers (`calculateSimulation`, `solveForTargetBE`,
`solveForTargetPnL` from `src/App.tsx`), with numbers modelled as
rationals. JavaScript `Math.round` is `round` (half towards +inf),
`Math.ceil` is `Int.ceil`, the stable `Array.prototype.sort` is a
stable insertion sort on the same comparator.
-/

inductive PosType
  | ENTRY
  | MAIN
  | DYN
  | HEDGE
deriving DecidableEq, Repr

def PosType.str : PosType → String
  | .ENTRY => "ENTRY"
  | .MAIN => "MAIN"
  | .DYN => "DYN"
  | .HEDGE => "HEDGE"

inductive Direction
  | LONG
  | SHORT
deriving DecidableEq, Repr

def Direction.isLong : Direction → Bool
  | .LONG => true
  | .SHORT => false

/-- Order candidate produced by the ladder generation loops. -/
structure Order where
  type : PosType
  label : String
  price : ℚ
  lot : ℚ
deriving DecidableEq, Repr

/-- A filled position record (interface `Position` in the source). -/
structure Position where
  id : String
  type : PosType
  level : String
  price : ℚ
  lot : ℚ
  totalLot : ℚ
  avgPrice : ℚ
  dist : ℚ
  indivPnL : ℚ
  cumPnL : ℚ
deriving DecidableEq, Repr

/-- The `summary` record of `SimulationResult`. -/
structure Summary where
  slot : ℕ
  avgPrice : ℚ
  pnl : ℚ
  mainPnL : ℚ
  hedgePnL : ℚ
  totalLot : ℚ
  hedgeLot : ℚ
  netLot : ℚ
  rangeCovered : ℚ
  beDistance : ℚ
  recoveryGap : ℚ
  netAvgPrice : ℚ
  isHedged : Bool
  hedgeTriggerPrice : Option ℚ
deriving DecidableEq, Repr

structure SimulationResult where
  positions : List Position
  summary : Summary
deriving DecidableEq, Repr

structure HedgeConfig where
  enabled : Bool
  stopLossAmount : ℚ
  lotMulti : ℚ
  slMulti : ℚ
deriving DecidableEq, Repr

/-- `const normalizeLot = (val) => Math.round(val * 100) / 100`. -/
def normalizeLot (val : ℚ) : ℚ := (round (val * 100) : ℤ) / 100

/-- Rounding to two decimals, modelling `parseFloat(x.toFixed(2))`
in the solvers' final assignments. -/
def round2 (x : ℚ) : ℚ := (round (x * 100) : ℤ) / 100

/-- `dirMult` of the source: +1 for LONG, -1 for SHORT. -/
def dirMult (d : Direction) : ℚ := if d.isLong then 1 else -1

/-- `calcBasketPnL` closure of the source. -/
def calcBasketPnL (contractSize dm atPrice avg lots : ℚ) : ℚ :=
  (atPrice - avg) * lots * contractSize * dm

/-- `calcSinglePnL` closure of the source. -/
def calcSinglePnL (contractSize dm atPrice openPrice lot : ℚ) : ℚ :=
  (atPrice - openPrice) * lot * contractSize * dm

def safetyLimit : ℕ := 3000

/-- `loopLimit = Math.min(Math.ceil(|entry - max| / step) + 10, 3000)`. -/
def loopLimitFor (entryPrice maxPrice step : ℚ) : ℕ :=
  min ((⌈|entryPrice - maxPrice| / step⌉).toNat + 10) safetyLimit

/-- The main-ladder generation loop (first `for` loop of
`calculateSimulation`): order `i` at `entry ∓ i·step`, lot
`normalizeLot(i = 0 ? initLot : initLot·multi^i)`. -/
def mainLadder (entryPrice maxPrice step initLot multi : ℚ) (isLong : Bool) :
    List Order :=
  (List.range (loopLimitFor entryPrice maxPrice step)).map fun (i : ℕ) =>
    let p := if isLong then entryPrice - (i : ℚ) * step
      else entryPrice + (i : ℚ) * step
    let rawLot := if i = 0 then initLot else initLot * multi ^ (i : ℕ)
    let l := normalizeLot rawLot
    let type := if i = 0 then PosType.ENTRY else PosType.MAIN
    let label := if i = 0 then "ENTRY" else "L-" ++ toString i
    ⟨type, label, p, l⟩

/-- The dynamic-ladder generation loop (second `for` loop): offset
`i·step + 1.5·step`, lot `normalizeLot(initLot·multi^(i+2))`, label
`D-(i+1.5)`. -/
def dynLadder (entryPrice maxPrice step initLot multi : ℚ) (isLong : Bool) :
    List Order :=
  (List.range (loopLimitFor entryPrice maxPrice step)).map fun (i : ℕ) =>
    let offset := (i : ℚ) * step + step * (3/2)
    let p := if isLong then entryPrice - offset else entryPrice + offset
    let dynLot := normalizeLot (initLot * multi ^ (i + 2))
    ⟨PosType.DYN, "D-" ++ toString (i + 1) ++ ".5", p, dynLot⟩

/-- Combine both ladders, stable-sort ascending by absolute distance
from entry, truncate to the safety cap (lines 108-120 of the source). -/
def buildOrders (entryPrice maxPrice step initLot multi : ℚ)
    (isLong useDynamic : Bool) : List Order :=
  let mainOrders := mainLadder entryPrice maxPrice step initLot multi isLong
  let dynOrders :=
    if useDynamic then dynLadder entryPrice maxPrice step initLot multi isLong
    else []
  let all := mainOrders ++ dynOrders
  let sorted := all.insertionSort
    (fun a b => |entryPrice - a.price| ≤ |entryPrice - b.price|)
  if sorted.length > safetyLimit then sorted.take safetyLimit else sorted

/-- Accumulator state: the mutable locals of the main loop. -/
structure AccState where
  positions : List Position
  totalLot : ℚ
  totalCost : ℚ
  avgPrice : ℚ
  isHedged : Bool
  hedgeTriggerPrice : ℚ
  hedgeLot : ℚ
  hedgeEntryPrice : ℚ
deriving Repr

/-- Initial accumulator state: `(0, 0, entryPrice)`, no hedge. -/
def initialState (entryPrice : ℚ) : AccState :=
  ⟨[], 0, 0, entryPrice, false, 0, 0, 0⟩

/-- The hedge-firing block (identical at both trigger sites, lines
142-158 and 179-195 of the source, differing only in the record id):
computes the exact analytic trigger price, the hedge lot, net lot and
net average, appends the HEDGE position and marks the state hedged. -/
def fireHedge (hid : String) (entryPrice maxPrice contractSize dm : ℚ)
    (hc : HedgeConfig) (st : AccState) : AccState :=
  let exactTriggerPrice :=
    st.avgPrice + hc.stopLossAmount / (st.totalLot * contractSize * dm)
  let hLot := normalizeLot (st.totalLot * hc.lotMulti)
  let hedgeIndivPnL := (maxPrice - exactTriggerPrice) * hLot * contractSize * (-dm)
  let netSignedLot := st.totalLot * dm + hLot * (-dm)
  let netLot := normalizeLot |netSignedLot|
  let netAvgPrice :=
    if |st.totalLot - hLot| > 1/1000 then
      (st.avgPrice * st.totalLot - exactTriggerPrice * hLot) / (st.totalLot - hLot)
    else 0
  { st with
    isHedged := true
    hedgeTriggerPrice := exactTriggerPrice
    hedgeEntryPrice := exactTriggerPrice
    hedgeLot := hLot
    positions := st.positions ++
      [⟨hid, PosType.HEDGE, "HEDGE", exactTriggerPrice, hLot, netLot,
        netAvgPrice, |entryPrice - exactTriggerPrice|, hedgeIndivPnL,
        hc.stopLossAmount⟩] }

/-- One fill (lines 163-173): round the new total lot, accumulate the
unrounded cost, recompute the average, record the position. Caution:
when every lot so far rounded to 0 the source's
`currentTotalCost / currentTotalLot` is the float division 0/0 = NaN,
while ℚ division by zero returns 0 — a recorded position with
`totalLot = 0` therefore stands for a NaN average in the program, and
no theorem about `avgPrice` may rely on its collapsed 0 value there. -/
def fillOrder (entryPrice maxPrice contractSize dm : ℚ) (o : Order)
    (st : AccState) : AccState :=
  let newLot := normalizeLot (st.totalLot + o.lot)
  let newCost := st.totalCost + o.price * o.lot
  let newAvg := newCost / newLot
  let pnlSnapshot := calcBasketPnL contractSize dm o.price newAvg newLot
  let indivPnL := calcSinglePnL contractSize dm maxPrice o.price o.lot
  { st with
    positions := st.positions ++
      [⟨o.type.str ++ "-" ++ o.label, o.type, o.label, o.price, o.lot,
        newLot, newAvg, |entryPrice - o.price|, indivPnL, pnlSnapshot⟩]
    totalLot := newLot
    totalCost := newCost
    avgPrice := newAvg }

/-- The main `for (const order of potentialOrders)` loop (lines
135-174): boundary stop, pre-fill hedge check (break on trigger),
otherwise fill and continue. -/
def walk (entryPrice maxPrice contractSize dm : ℚ) (isLong : Bool)
    (hc : HedgeConfig) : List Order → AccState → AccState
  | [], st => st
  | o :: rest, st =>
    if (if isLong then o.price < maxPrice else o.price > maxPrice) then st
    else if hc.enabled ∧ st.isHedged = false ∧ hc.stopLossAmount < 0 ∧
        0 < st.totalLot ∧
        calcBasketPnL contractSize dm o.price st.avgPrice st.totalLot ≤
          hc.stopLossAmount then
      fireHedge "hedge-trigger" entryPrice maxPrice contractSize dm hc st
    else
      walk entryPrice maxPrice contractSize dm isLong hc rest
        (fillOrder entryPrice maxPrice contractSize dm o st)

/-- Ladder generation, accumulation, and the final post-exhaustion
boundary hedge check (lines 92-197); everything before the win-mode
overlay and the summary. -/
def simulateCore (entryPrice maxPrice step initLot multi : ℚ)
    (dir : Direction) (contractSize : ℚ) (useDynamic : Bool)
    (hc : HedgeConfig) : AccState :=
  let isLong := dir.isLong
  let dm := dirMult dir
  let orders := buildOrders entryPrice maxPrice step initLot multi isLong useDynamic
  let st := walk entryPrice maxPrice contractSize dm isLong hc orders
    (initialState entryPrice)
  if hc.enabled ∧ st.isHedged = false ∧ hc.stopLossAmount < 0 ∧
      0 < st.totalLot ∧
      calcBasketPnL contractSize dm maxPrice st.avgPrice st.totalLot ≤
        hc.stopLossAmount then
    fireHedge "hedge-final" entryPrice maxPrice contractSize dm hc st
  else st

/-- The all-zero summary returned for invalid inputs (line 88). -/
def emptySummary : Summary :=
  ⟨0, 0, 0, 0, 0, 0, 0, 0, 0, 0, 0, 0, false, none⟩

/-- The win-mode overlay applied to one position (lines 215-223). -/
def overlayPosition (contractSize dm exitPrice : ℚ) (p : Position) : Position :=
  if p.type = PosType.HEDGE then
    { p with indivPnL := (exitPrice - p.price) * p.lot * contractSize * (-dm) }
  else
    { p with indivPnL := (exitPrice - p.price) * p.lot * contractSize * dm }

/-- `netLot = normalizeLot(|netSignedLot|)` of lines 199-200. -/
def netLotOf (dm : ℚ) (st : AccState) : ℚ :=
  normalizeLot |st.totalLot * dm + (if st.isHedged then st.hedgeLot * (-dm) else 0)|

/-- The final `netAvgPrice` of lines 201-206. -/
def netAvgPriceOf (st : AccState) : ℚ :=
  if st.isHedged then
    if |st.totalLot - st.hedgeLot| > 1/1000 then
      (st.avgPrice * st.totalLot - st.hedgeEntryPrice * st.hedgeLot) /
        (st.totalLot - st.hedgeLot)
    else 0
  else st.avgPrice

/-- `finalPositions` of lines 208-224: the win-mode re-mark at
`exitPrice = netAvgPrice + targetProfit·dirMult`, or the accumulated
list unchanged. -/
def finalPositionsOf (contractSize dm targetProfit : ℚ) (isWinMode : Bool)
    (st : AccState) : List Position :=
  if isWinMode then
    st.positions.map
      (overlayPosition contractSize dm (netAvgPriceOf st + targetProfit * dm))
  else st.positions

/-- `finalMainPnL` accumulation of lines 226-229. -/
def mainPnLOf (l : List Position) : ℚ :=
  ((l.filter fun p => p.type ≠ PosType.HEDGE).map Position.indivPnL).sum

/-- `finalHedgePnL` accumulation of lines 226-229. -/
def hedgePnLOf (l : List Position) : ℚ :=
  ((l.filter fun p => p.type = PosType.HEDGE).map Position.indivPnL).sum

/-- `function calculateSimulation(...)` (lines 68-247 of the source). -/
def calculateSimulation (entryPrice maxPrice step initLot multi : ℚ)
    (dir : Direction) (contractSize : ℚ) (useDynamic : Bool)
    (hc : HedgeConfig) (isWinMode : Bool) (targetProfit : ℚ) :
    SimulationResult :=
  let dm := dirMult dir
  if step ≤ 0 ∨ initLot ≤ 0 ∨ contractSize ≤ 0 then
    ⟨[], emptySummary⟩
  else
    let st := simulateCore entryPrice maxPrice step initLot multi dir
      contractSize useDynamic hc
    let finalPositions := finalPositionsOf contractSize dm targetProfit
      isWinMode st
    ⟨finalPositions,
     ⟨(finalPositions.filter fun p => p.type ≠ PosType.HEDGE).length,
      st.avgPrice,
      mainPnLOf finalPositions + hedgePnLOf finalPositions,
      mainPnLOf finalPositions,
      hedgePnLOf finalPositions,
      st.totalLot,
      if st.isHedged then st.hedgeLot else 0,
      netLotOf dm st,
      |entryPrice - maxPrice|,
      |entryPrice - st.avgPrice|,
      |maxPrice - netAvgPriceOf st|,
      netAvgPriceOf st,
      st.isHedged,
      if st.isHedged then some st.hedgeTriggerPrice else none⟩⟩

/-- Bisection loop of `solveForTargetBE` (lines 457-465), on fuel. -/
def solveBELoop (entryPrice step initLot multi : ℚ) (dir : Direction)
    (contractSize : ℚ) (useDynamic : Bool) (hc : HedgeConfig) (tBE : ℚ) :
    ℕ → ℚ → ℚ → ℚ → ℚ
  | 0, _, _, bestMax => bestMax
  | n + 1, low, high, bestMax =>
    let midRange := (low + high) / 2
    let testMax := if dir.isLong then entryPrice - midRange else entryPrice + midRange
    let res := calculateSimulation entryPrice testMax step initLot multi dir
      contractSize useDynamic hc false 0
    let be := if res.summary.isHedged then res.summary.netAvgPrice
      else res.summary.avgPrice
    if |be - tBE| < 1/2 then testMax
    else if dir.isLong then
      if be > tBE then
        solveBELoop entryPrice step initLot multi dir contractSize useDynamic
          hc tBE n midRange high bestMax
      else
        solveBELoop entryPrice step initLot multi dir contractSize useDynamic
          hc tBE n low midRange bestMax
    else
      if be < tBE then
        solveBELoop entryPrice step initLot multi dir contractSize useDynamic
          hc tBE n midRange high bestMax
      else
        solveBELoop entryPrice step initLot multi dir contractSize useDynamic
          hc tBE n low midRange bestMax

/-- `solveForTargetBE` (lines 454-469): guard `!tBE || tBE <= 0`
returns without touching the range or max price (modelled as `none`);
otherwise 30 bisection rounds over distance [0.1, 5000] and the pair
(new range, new max price), each `toFixed(2)`-rounded. -/
def solveForTargetBE (entryPrice maxPrice step initLot multi : ℚ)
    (dir : Direction) (contractSize : ℚ) (useDynamic : Bool)
    (hc : HedgeConfig) (tBE : ℚ) : Option (ℚ × ℚ) :=
  if tBE = 0 ∨ tBE ≤ 0 then none
  else
    let bestMax := solveBELoop entryPrice step initLot multi dir contractSize
      useDynamic hc tBE 30 (1/10) 5000 maxPrice
    some (round2 |entryPrice - bestMax|, round2 bestMax)

/-- Bisection loop of `solveForTargetPnL` (lines 473-480), on fuel. -/
def solvePnLLoop (entryPrice step initLot multi : ℚ) (dir : Direction)
    (contractSize : ℚ) (useDynamic : Bool) (hc : HedgeConfig) (target : ℚ) :
    ℕ → ℚ → ℚ → ℚ → ℚ
  | 0, _, _, bestMax => bestMax
  | n + 1, low, high, bestMax =>
    let midRange := (low + high) / 2
    let testMax := if dir.isLong then entryPrice - midRange else entryPrice + midRange
    let res := calculateSimulation entryPrice testMax step initLot multi dir
      contractSize useDynamic hc false 0
    let pnl := res.summary.pnl
    if |pnl - target| < 10 then testMax
    else if pnl > target then
      solvePnLLoop entryPrice step initLot multi dir contractSize useDynamic
        hc target n midRange high bestMax
    else
      solvePnLLoop entryPrice step initLot multi dir contractSize useDynamic
        hc target n low midRange bestMax

/-- `solveForTargetPnL` (lines 471-484): no guard on the target; 30
bisection rounds, then the (new range, new max price) pair is always
written back. -/
def solveForTargetPnL (entryPrice maxPrice step initLot multi : ℚ)
    (dir : Direction) (contractSize : ℚ) (useDynamic : Bool)
    (hc : HedgeConfig) (target : ℚ) : Option (ℚ × ℚ) :=
  let bestMax := solvePnLLoop entryPrice step initLot multi dir contractSize
    useDynamic hc target 30 (1/10) 5000 maxPrice
  some (round2 |entryPrice - bestMax|, round2 bestMax)

/-- Number of HEDGE records in a position list. -/
def countHedge (l : List Position) : ℕ :=
  (l.filter fun p => p.type = PosType.HEDGE).length

/-- Non-hedge (filled) positions of a list, in order. -/
def nonHedge (l : List Position) : List Position :=
  l.filter fun p => p.type ≠ PosType.HEDGE

/-- Unrounded sum of `price × lot` over a position list. -/
def sumPL (l : List Position) : ℚ :=
  (l.map fun p => p.price * p.lot).sum

/-- A position with its `indivPnL` field cleared, for frame
comparisons between runs. -/
def stripIndiv (p : Position) : Position := { p with indivPnL := 0 }

/-! ### Concrete scenario runs used by individual claims -/

/-- Scenario B of the spec, exactly as stated: entry 2000, boundary
1950, step 10, initial lot 0.01, multiplier 1.4, LONG, contract size
100, no dynamic ladder, hedge enabled with stop loss -500. -/
def scenarioBRun : SimulationResult :=
  calculateSimulation 2000 1950 10 (1/100) (7/5) Direction.LONG 100 false
    ⟨true, -500, 2, 2⟩ false 0

/-- Scenario B with the stop loss tightened to -200, a threshold the
basket loss (bottoming out at -250) actually crosses. -/
def scenarioB200Run : SimulationResult :=
  calculateSimulation 2000 1950 10 (1/100) (7/5) Direction.LONG 100 false
    ⟨true, -200, 2, 2⟩ false 0

/-- C1 counterexample: at Scenario B's exact inputs the basket loss
never reaches -500 (it bottoms out at -250 at the boundary), so the
hedge does not fire: `isHedged` is false, there is no HEDGE record and
`hedgeTriggerPrice` is null — contradicting the claimed
`isHedged = true` with one HEDGE record. -/
theorem scenarioB_counterexample :
    scenarioBRun.summary.isHedged = false ∧
    countHedge scenarioBRun.positions = 0 ∧
    scenarioBRun.summary.hedgeTriggerPrice = none ∧
    scenarioBRun.summary.pnl = -250 := by
  refine ⟨?_, ?_, ?_, ?_⟩ <;> with_unfolding_all rfl

/-- C1 amended: with the same inputs but stopLossAmount -200 (a
threshold the basket loss actually reaches) the simulation yields
`isHedged = true`, exactly one HEDGE record, `hedgeTriggerPrice`
21500/11 strictly between 1950 and 2000, and `hedgeLot` equal to
`round(totalLotAtTrigger × 2, 2)`. -/
theorem scenarioB_amended :
    scenarioB200Run.summary.isHedged = true ∧
    countHedge scenarioB200Run.positions = 1 ∧
    scenarioB200Run.summary.hedgeTriggerPrice = some (21500/11) ∧
    (1950 : ℚ) < 21500/11 ∧ (21500/11 : ℚ) < 2000 ∧
    scenarioB200Run.summary.hedgeLot =
      normalizeLot (scenarioB200Run.summary.totalLot * 2) := by
  refine ⟨?_, ?_, ?_, by norm_num, by norm_num, ?_⟩ <;> with_unfolding_all rfl

/-- The stop-loss -200 hedged run again, owned by claim C2. -/
def detectionRun : SimulationResult :=
  calculateSimulation 2000 1950 10 (1/100) (7/5) Direction.LONG 100 false
    ⟨true, -200, 2, 2⟩ false 0

/-- C2 counterexample: in this run the crossing is detected at the
candidate rung priced 1950 (which is also the boundary price), yet the
recorded hedge entry price is the analytic trigger 21500/11 ≈ 1954.55,
not 1950: the ladder fills 2000..1960 and the HEDGE record carries
price 21500/11 ≠ 1950. -/
theorem detection_price_counterexample :
    (detectionRun.positions.map fun p => (p.type, p.price)) =
      [(PosType.ENTRY, 2000), (PosType.MAIN, 1990), (PosType.MAIN, 1980),
       (PosType.MAIN, 1970), (PosType.MAIN, 1960),
       (PosType.HEDGE, 21500/11)] ∧
    ((21500 : ℚ)/11 ≠ 1950) := by
  exact ⟨by with_unfolding_all rfl, by norm_num⟩

/-- C5: invalid inputs (step ≤ 0 or initLot ≤ 0 or contractSize ≤ 0)
yield the empty "null simulation": no positions, every numeric summary
field 0, `isHedged = false`, `hedgeTriggerPrice` null, regardless of
all other inputs. -/
theorem invalid_inputs_null_simulation (entryPrice maxPrice step initLot multi : ℚ)
    (dir : Direction) (contractSize : ℚ) (useDynamic : Bool) (hc : HedgeConfig)
    (isWinMode : Bool) (targetProfit : ℚ)
    (h : step ≤ 0 ∨ initLot ≤ 0 ∨ contractSize ≤ 0) :
    calculateSimulation entryPrice maxPrice step initLot multi dir contractSize
      useDynamic hc isWinMode targetProfit =
      ⟨[], ⟨0, 0, 0, 0, 0, 0, 0, 0, 0, 0, 0, 0, false, none⟩⟩ := by
  unfold calculateSimulation
  exact if_pos h

/-- Witness for C5 at step = 0 with otherwise arbitrary live inputs. -/
theorem invalid_inputs_null_simulation_witness :
    calculateSimulation 2000 1950 0 (1/100) (7/5) Direction.LONG 100 true
      ⟨true, -500, 2, 2⟩ true 20 =
      ⟨[], ⟨0, 0, 0, 0, 0, 0, 0, 0, 0, 0, 0, 0, false, none⟩⟩ :=
  invalid_inputs_null_simulation 2000 1950 0 (1/100) (7/5) Direction.LONG 100
    true ⟨true, -500, 2, 2⟩ true 20 (Or.inl (by norm_num))

/-- The P&L solver run at a negative target, owned by claim C6. -/
def pnlSolverRun : Option (ℚ × ℚ) :=
  solveForTargetPnL 2000 1950 100 (1/10) 2 Direction.LONG 100 false
    ⟨false, 0, 2, 2⟩ (-5000)

set_option maxRecDepth 40000 in
/-- C6 counterexample: `solveForTargetPnL` has no target guard; at the
negative target -5000 (with entry 2000, max price 1950, step 100,
initial lot 0.1, multiplier 2, LONG, contract size 100) it bisects and
writes back max price 1785.67 ≠ 1950 — the boundary is not left
unchanged. -/
theorem pnl_solver_counterexample :
    pnlSolverRun = some (21433/100, 178567/100) ∧
    ((178567 : ℚ)/100 ≠ 1950) ∧ ((-5000 : ℚ) ≤ 0) := by
  exact ⟨by with_unfolding_all rfl, by norm_num, by norm_num⟩

/-- C6 amended, breakeven half: `solveForTargetBE` does silently no-op
on every non-positive target, leaving range and max price unchanged. -/
theorem solveBE_noop_nonpositive (entryPrice maxPrice step initLot multi : ℚ)
    (dir : Direction) (contractSize : ℚ) (useDynamic : Bool) (hc : HedgeConfig)
    (t : ℚ) (ht : t ≤ 0) :
    solveForTargetBE entryPrice maxPrice step initLot multi dir contractSize
      useDynamic hc t = none := by
  unfold solveForTargetBE
  exact if_pos (Or.inr ht)

/-- Witness for the breakeven-solver no-op at target -3. -/
theorem solveBE_noop_nonpositive_witness :
    solveForTargetBE 2000 1950 10 (1/100) (7/5) Direction.LONG 100 false
      ⟨false, 0, 2, 2⟩ (-3) = none :=
  solveBE_noop_nonpositive 2000 1950 10 (1/100) (7/5) Direction.LONG 100 false
    ⟨false, 0, 2, 2⟩ (-3) (by norm_num)

/-- The main ladder at initial lot 0.015, owned by claim C7. -/
def fractionalLotLadder : List Order :=
  mainLadder 2000 1950 10 (3/200) (7/5) true

/-- C7 counterexample: the generator rounds the lot at index 0 too:
with the valid initial lot 0.015 the first order's lot is
`normalizeLot(0.015) = 0.02`, not the claimed raw `initialLot`. -/
theorem mainLadder_lot0_counterexample :
    fractionalLotLadder.head?.map Order.lot = some (1/50) ∧
    ((1 : ℚ)/50 ≠ 3/200) ∧ ((0 : ℚ) < 3/200) := by
  exact ⟨by with_unfolding_all rfl, by norm_num, by norm_num⟩

/-- C7 amended: for every valid input the main ladder has exactly
`min(ceil(|entry - boundary| / step) + 10, 3000)` orders; order `i` is
priced `entry ∓ i·step` and its lot is `round(initialLot·multiplier^i, 2)`
for every `i`, including `i = 0` (where the code also rounds). -/
theorem mainLadder_spec (e m s il mu : ℚ) (isLong : Bool)
    (hs : 0 < s) (hil : 0 < il) :
    (mainLadder e m s il mu isLong).length =
      min ((⌈|e - m| / s⌉).toNat + 10) 3000 ∧
    ∀ i (h : i < (mainLadder e m s il mu isLong).length),
      ((mainLadder e m s il mu isLong).get ⟨i, h⟩).price =
        (if isLong then e - (i : ℚ) * s else e + (i : ℚ) * s) ∧
      ((mainLadder e m s il mu isLong).get ⟨i, h⟩).lot =
        normalizeLot (il * mu ^ i) := by
  refine ⟨by simp [mainLadder, loopLimitFor, safetyLimit], ?_⟩
  intro i h
  constructor
  · simp only [mainLadder, List.get_eq_getElem, List.getElem_map,
      List.getElem_range]
  · simp only [mainLadder, List.get_eq_getElem, List.getElem_map,
      List.getElem_range]
    by_cases hi : i = 0
    · simp [hi]
    · simp [hi]

/-- Witness for the amended C7 at Scenario A's inputs. -/
theorem mainLadder_spec_witness :
    (mainLadder 2000 1950 10 (1/100) (7/5) true).length =
      min ((⌈|(2000 : ℚ) - 1950| / 10⌉).toNat + 10) 3000 ∧
    min ((⌈|(2000 : ℚ) - 1950| / 10⌉).toNat + 10) 3000 = 15 :=
  ⟨(mainLadder_spec 2000 1950 10 (1/100) (7/5) true (by norm_num)
      (by norm_num)).1,
   by with_unfolding_all rfl⟩

theorem mainLadder_price_le (e m s il mu : ℚ) (hs : 0 < s) :
    ∀ o ∈ mainLadder e m s il mu true, o.price ≤ e := by
  intro o ho
  simp only [mainLadder, List.mem_map, List.mem_range] at ho
  obtain ⟨i, -, rfl⟩ := ho
  show (if (true : Bool) = true then e - (i : ℚ) * s else e + (i : ℚ) * s) ≤ e
  rw [if_pos rfl]
  nlinarith [Nat.cast_nonneg (α := ℚ) i]

theorem dynLadder_price_le (e m s il mu : ℚ) (hs : 0 < s) :
    ∀ o ∈ dynLadder e m s il mu true, o.price ≤ e := by
  intro o ho
  simp only [dynLadder, List.mem_map, List.mem_range] at ho
  obtain ⟨i, -, rfl⟩ := ho
  show (if (true : Bool) = true then e - ((i : ℚ) * s + s * (3/2))
    else e + ((i : ℚ) * s + s * (3/2))) ≤ e
  rw [if_pos rfl]
  nlinarith [Nat.cast_nonneg (α := ℚ) i]

theorem mem_of_mem_capped {l : List Order} {n : ℕ} {o : Order}
    (ho : o ∈ if l.length > n then l.take n else l) : o ∈ l := by
  by_cases h : l.length > n
  · rw [if_pos h] at ho
    exact List.take_subset n l ho
  · rw [if_neg h] at ho
    exact ho

/-- Every order produced by `buildOrders` comes from one of the two
generation loops. -/
theorem buildOrders_mem (e m s il mu : ℚ) (isLong dyn : Bool) :
    ∀ o ∈ buildOrders e m s il mu isLong dyn,
      o ∈ mainLadder e m s il mu isLong ++
        (if dyn then dynLadder e m s il mu isLong else []) := by
  intro o ho
  exact (List.perm_insertionSort _ _).mem_iff.mp (mem_of_mem_capped ho)

theorem buildOrders_price_le (e m s il mu : ℚ) (dyn : Bool) (hs : 0 < s) :
    ∀ o ∈ buildOrders e m s il mu true dyn, o.price ≤ e := by
  intro o ho
  rcases List.mem_append.mp (buildOrders_mem e m s il mu true dyn o ho) with
    hmain | hdyn
  · exact mainLadder_price_le e m s il mu hs o hmain
  · cases dyn with
    | false =>
      rw [if_neg (by simp)] at hdyn
      exact absurd hdyn (List.not_mem_nil o)
    | true =>
      rw [if_pos rfl] at hdyn
      exact dynLadder_price_le e m s il mu hs o hdyn

theorem mainLadder_price_ge (e m s il mu : ℚ) (hs : 0 < s) :
    ∀ o ∈ mainLadder e m s il mu false, e ≤ o.price := by
  intro o ho
  simp only [mainLadder, List.mem_map, List.mem_range] at ho
  obtain ⟨i, -, rfl⟩ := ho
  show e ≤ (if (false : Bool) = true then e - (i : ℚ) * s else e + (i : ℚ) * s)
  rw [if_neg (by simp)]
  nlinarith [Nat.cast_nonneg (α := ℚ) i]

theorem dynLadder_price_ge (e m s il mu : ℚ) (hs : 0 < s) :
    ∀ o ∈ dynLadder e m s il mu false, e ≤ o.price := by
  intro o ho
  simp only [dynLadder, List.mem_map, List.mem_range] at ho
  obtain ⟨i, -, rfl⟩ := ho
  show e ≤ (if (false : Bool) = true then e - ((i : ℚ) * s + s * (3/2))
    else e + ((i : ℚ) * s + s * (3/2)))
  rw [if_neg (by simp)]
  nlinarith [Nat.cast_nonneg (α := ℚ) i]

theorem buildOrders_price_ge (e m s il mu : ℚ) (dyn : Bool) (hs : 0 < s) :
    ∀ o ∈ buildOrders e m s il mu false dyn, e ≤ o.price := by
  intro o ho
  rcases List.mem_append.mp (buildOrders_mem e m s il mu false dyn o ho) with
    hmain | hdyn
  · exact mainLadder_price_ge e m s il mu hs o hmain
  · cases dyn with
    | false =>
      rw [if_neg (by simp)] at hdyn
      exact absurd hdyn (List.not_mem_nil o)
    | true =>
      rw [if_pos rfl] at hdyn
      exact dynLadder_price_ge e m s il mu hs o hdyn

/-- If the very first candidate already lies beyond the boundary in
the adverse direction, the accumulation loop stops at once. -/
theorem walk_halt (e m cs dm : ℚ) (isLong : Bool) (hc : HedgeConfig)
    (os : List Order) (st : AccState)
    (h : ∀ o ∈ os, if isLong then o.price < m else o.price > m) :
    walk e m cs dm isLong hc os st = st := by
  cases os with
  | nil => rfl
  | cons o rest =>
    unfold walk
    rw [if_pos (h o (List.mem_cons_self o rest))]

/-- With the boundary strictly on the favorable side of the entry, no
order is ever consumed and the accumulator keeps its seed state. -/
theorem simulateCore_favorable (e m s il mu : ℚ) (dir : Direction)
    (cs : ℚ) (dyn : Bool) (hc : HedgeConfig) (hs : 0 < s)
    (hfav : if dir.isLong then e < m else m < e) :
    simulateCore e m s il mu dir cs dyn hc = initialState e := by
  have hw : walk e m cs (dirMult dir) dir.isLong hc
      (buildOrders e m s il mu dir.isLong dyn) (initialState e) =
      initialState e := by
    apply walk_halt
    intro o ho
    cases hdir : dir.isLong with
    | true =>
      rw [hdir] at ho
      show o.price < m
      have h1 : o.price ≤ e := buildOrders_price_le e m s il mu dyn hs o ho
      have h2 : e < m := by
        rw [hdir] at hfav
        simpa using hfav
      linarith
    | false =>
      rw [hdir] at ho
      show o.price > m
      have h1 : e ≤ o.price := buildOrders_price_ge e m s il mu dyn hs o ho
      have h2 : m < e := by
        rw [hdir] at hfav
        simpa using hfav
      linarith
  simp only [simulateCore, hw]
  rw [if_neg]
  intro hcontra
  exact absurd hcontra.2.2.2.1 (by norm_num [initialState])

/-- C10: with the boundary strictly on the favorable side of the entry
and valid positive step/lot/contract size, the engine fills zero
orders but reports the accumulator's seed: gross and net average price
equal to the entry price (not the all-zero sentinel), total lot 0,
breakeven distance 0, and recovery gap `|boundary - entry|`. -/
theorem favorable_boundary_seed_average (e m s il mu : ℚ) (dir : Direction)
    (cs : ℚ) (dyn : Bool) (hc : HedgeConfig) (w : Bool) (tp : ℚ)
    (hs : 0 < s) (hil : 0 < il) (hcs : 0 < cs)
    (hfav : if dir.isLong then e < m else m < e) :
    (calculateSimulation e m s il mu dir cs dyn hc w tp).positions = [] ∧
    (calculateSimulation e m s il mu dir cs dyn hc w tp).summary.avgPrice = e ∧
    (calculateSimulation e m s il mu dir cs dyn hc w tp).summary.netAvgPrice = e ∧
    (calculateSimulation e m s il mu dir cs dyn hc w tp).summary.totalLot = 0 ∧
    (calculateSimulation e m s il mu dir cs dyn hc w tp).summary.beDistance = 0 ∧
    (calculateSimulation e m s il mu dir cs dyn hc w tp).summary.recoveryGap =
      |m - e| ∧
    (calculateSimulation e m s il mu dir cs dyn hc w tp).summary.slot = 0 := by
  have hguard : ¬(s ≤ 0 ∨ il ≤ 0 ∨ cs ≤ 0) := by
    push_neg
    exact ⟨hs, hil, hcs⟩
  have hcore := simulateCore_favorable e m s il mu dir cs dyn hc hs hfav
  simp [calculateSimulation, if_neg hguard, hcore, initialState, normalizeLot,
    finalPositionsOf, netAvgPriceOf, netLotOf]

/-- Witness for C10: LONG with boundary 2010 above entry 2000. -/
theorem favorable_boundary_seed_average_witness :
    (calculateSimulation 2000 2010 10 (1/100) (7/5) Direction.LONG 100 false
      ⟨true, -500, 2, 2⟩ false 0).positions = [] ∧
    (calculateSimulation 2000 2010 10 (1/100) (7/5) Direction.LONG 100 false
      ⟨true, -500, 2, 2⟩ false 0).summary.avgPrice = 2000 ∧
    (calculateSimulation 2000 2010 10 (1/100) (7/5) Direction.LONG 100 false
      ⟨true, -500, 2, 2⟩ false 0).summary.netAvgPrice = 2000 ∧
    (calculateSimulation 2000 2010 10 (1/100) (7/5) Direction.LONG 100 false
      ⟨true, -500, 2, 2⟩ false 0).summary.totalLot = 0 ∧
    (calculateSimulation 2000 2010 10 (1/100) (7/5) Direction.LONG 100 false
      ⟨true, -500, 2, 2⟩ false 0).summary.beDistance = 0 ∧
    (calculateSimulation 2000 2010 10 (1/100) (7/5) Direction.LONG 100 false
      ⟨true, -500, 2, 2⟩ false 0).summary.recoveryGap = |(2010 : ℚ) - 2000| ∧
    (calculateSimulation 2000 2010 10 (1/100) (7/5) Direction.LONG 100 false
      ⟨true, -500, 2, 2⟩ false 0).summary.slot = 0 :=
  favorable_boundary_seed_average 2000 2010 10 (1/100) (7/5) Direction.LONG 100
    false ⟨true, -500, 2, 2⟩ false 0 (by norm_num) (by norm_num) (by norm_num)
    (by show (2000 : ℚ) < 2010; norm_num)

theorem countHedge_nil : countHedge [] = 0 := rfl

theorem countHedge_append (l₁ l₂ : List Position) :
    countHedge (l₁ ++ l₂) = countHedge l₁ + countHedge l₂ := by
  simp [countHedge]

theorem countHedge_eq_zero (l : List Position)
    (h : countHedge l = 0) : ∀ p ∈ l, p.type ≠ PosType.HEDGE := by
  intro p hp
  simp only [countHedge, List.length_eq_zero, List.filter_eq_nil] at h
  intro hval
  exact absurd (decide_eq_true hval) (h p hp)

/-- Bookkeeping facts about the hedge that every accumulator state
reached by the loop satisfies: a state that is not hedged carries no
HEDGE record; a hedged state carries exactly one, its recorded price
is the analytic trigger price computed from the state's (frozen)
average and total lot, and its recorded cumulative P&L is the
configured stop-loss amount. -/
def HedgeInv (sl cs dm : ℚ) (st : AccState) : Prop :=
  (st.isHedged = false → countHedge st.positions = 0) ∧
  (st.isHedged = true →
    countHedge st.positions = 1 ∧
    st.hedgeTriggerPrice = st.avgPrice + sl / (st.totalLot * cs * dm) ∧
    ∀ p ∈ st.positions, p.type = PosType.HEDGE →
      p.price = st.hedgeTriggerPrice ∧ p.cumPnL = sl)

theorem hedgeInv_initial (sl cs dm e : ℚ) : HedgeInv sl cs dm (initialState e) := by
  constructor
  · intro _
    rfl
  · intro h
    simp [initialState] at h

theorem hedgeInv_fireHedge (hid : String) (e m cs dm : ℚ) (hc : HedgeConfig)
    (st : AccState) (h0 : st.isHedged = false)
    (hinv : HedgeInv hc.stopLossAmount cs dm st) :
    HedgeInv hc.stopLossAmount cs dm (fireHedge hid e m cs dm hc st) := by
  have hzero := hinv.1 h0
  constructor
  · intro hcontra
    simp [fireHedge] at hcontra
  · intro _
    refine ⟨?_, ?_, ?_⟩
    · show countHedge (st.positions ++ [_]) = 1
      rw [countHedge_append, hzero]
      rfl
    · rfl
    · intro p hp hptype
      show p.price = st.avgPrice + hc.stopLossAmount / (st.totalLot * cs * dm) ∧
        p.cumPnL = hc.stopLossAmount
      rcases List.mem_append.mp hp with hold | hnew
      · exact absurd hptype (countHedge_eq_zero st.positions hzero p hold)
      · have hp2 := List.mem_singleton.mp hnew
        subst hp2
        exact ⟨rfl, rfl⟩

theorem hedgeInv_fillOrder (e m cs dm sl : ℚ) (o : Order) (st : AccState)
    (h0 : st.isHedged = false) (honh : o.type ≠ PosType.HEDGE)
    (hinv : HedgeInv sl cs dm st) :
    HedgeInv sl cs dm (fillOrder e m cs dm o st) := by
  have hzero := hinv.1 h0
  constructor
  · intro _
    show countHedge (st.positions ++ [_]) = 0
    rw [countHedge_append, hzero]
    simp [countHedge, honh]
  · intro hcontra
    rw [show (fillOrder e m cs dm o st).isHedged = st.isHedged from rfl, h0]
      at hcontra
    exact absurd hcontra (by simp)

theorem fillOrder_isHedged (e m cs dm : ℚ) (o : Order) (st : AccState) :
    (fillOrder e m cs dm o st).isHedged = st.isHedged := rfl

theorem hedgeInv_walk (e m cs dm : ℚ) (isLong : Bool) (hc : HedgeConfig)
    (os : List Order) (st : AccState)
    (hos : ∀ o ∈ os, o.type ≠ PosType.HEDGE)
    (h0 : st.isHedged = false)
    (hinv : HedgeInv hc.stopLossAmount cs dm st) :
    HedgeInv hc.stopLossAmount cs dm (walk e m cs dm isLong hc os st) := by
  induction os generalizing st with
  | nil => exact hinv
  | cons o rest ih =>
    unfold walk
    by_cases hbreak : (if isLong then o.price < m else o.price > m)
    · rw [if_pos hbreak]
      exact hinv
    · rw [if_neg hbreak]
      by_cases htrig : hc.enabled ∧ st.isHedged = false ∧
          hc.stopLossAmount < 0 ∧ 0 < st.totalLot ∧
          calcBasketPnL cs dm o.price st.avgPrice st.totalLot ≤
            hc.stopLossAmount
      · rw [if_pos htrig]
        exact hedgeInv_fireHedge "hedge-trigger" e m cs dm hc st h0 hinv
      · rw [if_neg htrig]
        exact ih (fillOrder e m cs dm o st)
          (fun q hq => hos q (List.mem_cons_of_mem o hq))
          ((fillOrder_isHedged e m cs dm o st).trans h0)
          (hedgeInv_fillOrder e m cs dm hc.stopLossAmount o st h0
            (hos o (List.mem_cons_self o rest)) hinv)

theorem mainLadder_type_ne_hedge (e m s il mu : ℚ) (isLong : Bool) :
    ∀ o ∈ mainLadder e m s il mu isLong, o.type ≠ PosType.HEDGE := by
  intro o ho
  simp only [mainLadder, List.mem_map, List.mem_range] at ho
  obtain ⟨i, -, rfl⟩ := ho
  show (if i = 0 then PosType.ENTRY else PosType.MAIN) ≠ PosType.HEDGE
  split <;> simp

theorem dynLadder_type_ne_hedge (e m s il mu : ℚ) (isLong : Bool) :
    ∀ o ∈ dynLadder e m s il mu isLong, o.type ≠ PosType.HEDGE := by
  intro o ho
  simp only [dynLadder, List.mem_map, List.mem_range] at ho
  obtain ⟨i, -, rfl⟩ := ho
  show PosType.DYN ≠ PosType.HEDGE
  simp

theorem buildOrders_type_ne_hedge (e m s il mu : ℚ) (isLong dyn : Bool) :
    ∀ o ∈ buildOrders e m s il mu isLong dyn, o.type ≠ PosType.HEDGE := by
  intro o ho
  rcases List.mem_append.mp (buildOrders_mem e m s il mu isLong dyn o ho) with
    hmain | hdyn
  · exact mainLadder_type_ne_hedge e m s il mu isLong o hmain
  · cases dyn with
    | false =>
      rw [if_neg (by simp)] at hdyn
      exact absurd hdyn (List.not_mem_nil o)
    | true =>
      rw [if_pos rfl] at hdyn
      exact dynLadder_type_ne_hedge e m s il mu isLong o hdyn

theorem hedgeInv_simulateCore (e m s il mu : ℚ) (dir : Direction) (cs : ℚ)
    (dyn : Bool) (hc : HedgeConfig) :
    HedgeInv hc.stopLossAmount cs (dirMult dir)
      (simulateCore e m s il mu dir cs dyn hc) := by
  have hwalk := hedgeInv_walk e m cs (dirMult dir) dir.isLong hc
    (buildOrders e m s il mu dir.isLong dyn) (initialState e)
    (buildOrders_type_ne_hedge e m s il mu dir.isLong dyn)
    rfl (hedgeInv_initial hc.stopLossAmount cs (dirMult dir) e)
  simp only [simulateCore]
  split
  · next hcond =>
    exact hedgeInv_fireHedge "hedge-final" e m cs (dirMult dir) hc _
      hcond.2.1 hwalk
  · exact hwalk

theorem overlayPosition_type (cs dm x : ℚ) (p : Position) :
    (overlayPosition cs dm x p).type = p.type := by
  unfold overlayPosition
  split <;> rfl

theorem overlayPosition_price (cs dm x : ℚ) (p : Position) :
    (overlayPosition cs dm x p).price = p.price := by
  unfold overlayPosition
  split <;> rfl

theorem overlayPosition_cumPnL (cs dm x : ℚ) (p : Position) :
    (overlayPosition cs dm x p).cumPnL = p.cumPnL := by
  unfold overlayPosition
  split <;> rfl

theorem overlayPosition_lot (cs dm x : ℚ) (p : Position) :
    (overlayPosition cs dm x p).lot = p.lot := by
  unfold overlayPosition
  split <;> rfl

theorem overlayPosition_totalLot (cs dm x : ℚ) (p : Position) :
    (overlayPosition cs dm x p).totalLot = p.totalLot := by
  unfold overlayPosition
  split <;> rfl

theorem overlayPosition_avgPrice (cs dm x : ℚ) (p : Position) :
    (overlayPosition cs dm x p).avgPrice = p.avgPrice := by
  unfold overlayPosition
  split <;> rfl

theorem countHedge_map_overlay (cs dm x : ℚ) (l : List Position) :
    countHedge (l.map (overlayPosition cs dm x)) = countHedge l := by
  unfold countHedge
  rw [List.filter_map, List.length_map]
  congr 1
  apply List.filter_congr
  intro p _
  simp [Function.comp, overlayPosition_type]

theorem countHedge_finalPositionsOf (cs dm tp : ℚ) (w : Bool) (st : AccState) :
    countHedge (finalPositionsOf cs dm tp w st) = countHedge st.positions := by
  unfold finalPositionsOf
  split
  · exact countHedge_map_overlay cs dm _ st.positions
  · rfl

/-- Every retained position descends from an accumulated one with the
same type, price and cumulative P&L (the win-mode overlay only touches
`indivPnL`). -/
theorem mem_finalPositionsOf {cs dm tp : ℚ} {w : Bool} {st : AccState}
    {p : Position} (hp : p ∈ finalPositionsOf cs dm tp w st) :
    ∃ q ∈ st.positions, p.type = q.type ∧ p.price = q.price ∧
      p.cumPnL = q.cumPnL := by
  unfold finalPositionsOf at hp
  split at hp
  · obtain ⟨q, hq, rfl⟩ := List.mem_map.mp hp
    exact ⟨q, hq, overlayPosition_type cs dm _ q, overlayPosition_price cs dm _ q,
      overlayPosition_cumPnL cs dm _ q⟩
  · exact ⟨p, hp, rfl, rfl, rfl⟩

theorem hedgeInv_cumPnL {sl cs dm : ℚ} {st : AccState}
    (hinv : HedgeInv sl cs dm st) :
    ∀ p ∈ st.positions, p.type = PosType.HEDGE → p.cumPnL = sl := by
  intro p hp hpt
  cases hh : st.isHedged with
  | false => exact absurd hpt (countHedge_eq_zero _ (hinv.1 hh) p hp)
  | true => exact ((hinv.2 hh).2.2 p hp hpt).2

theorem hedgeInv_price {sl cs dm : ℚ} {st : AccState}
    (hinv : HedgeInv sl cs dm st) :
    ∀ p ∈ st.positions, p.type = PosType.HEDGE →
      p.price = st.hedgeTriggerPrice := by
  intro p hp hpt
  cases hh : st.isHedged with
  | false => exact absurd hpt (countHedge_eq_zero _ (hinv.1 hh) p hp)
  | true => exact ((hinv.2 hh).2.2 p hp hpt).1

theorem countHedge_le_one {sl cs dm : ℚ} {st : AccState}
    (hinv : HedgeInv sl cs dm st) : countHedge st.positions ≤ 1 := by
  cases hh : st.isHedged with
  | false => rw [hinv.1 hh]; norm_num
  | true => rw [(hinv.2 hh).1]

/-- The guard branch of `calculateSimulation` (line 85). -/
theorem calculateSimulation_invalid (e m s il mu : ℚ) (dir : Direction)
    (cs : ℚ) (dyn : Bool) (hc : HedgeConfig) (w : Bool) (tp : ℚ)
    (h : s ≤ 0 ∨ il ≤ 0 ∨ cs ≤ 0) :
    calculateSimulation e m s il mu dir cs dyn hc w tp = ⟨[], emptySummary⟩ := by
  unfold calculateSimulation
  exact if_pos h

theorem calculateSimulation_positions_valid (e m s il mu : ℚ) (dir : Direction)
    (cs : ℚ) (dyn : Bool) (hc : HedgeConfig) (w : Bool) (tp : ℚ)
    (h : ¬(s ≤ 0 ∨ il ≤ 0 ∨ cs ≤ 0)) :
    (calculateSimulation e m s il mu dir cs dyn hc w tp).positions =
      finalPositionsOf cs (dirMult dir) tp w
        (simulateCore e m s il mu dir cs dyn hc) := by
  simp only [calculateSimulation, if_neg h]

theorem calculateSimulation_summary_valid (e m s il mu : ℚ) (dir : Direction)
    (cs : ℚ) (dyn : Bool) (hc : HedgeConfig) (w : Bool) (tp : ℚ)
    (h : ¬(s ≤ 0 ∨ il ≤ 0 ∨ cs ≤ 0)) :
    (calculateSimulation e m s il mu dir cs dyn hc w tp).summary =
      ⟨((finalPositionsOf cs (dirMult dir) tp w
          (simulateCore e m s il mu dir cs dyn hc)).filter
            fun p => p.type ≠ PosType.HEDGE).length,
       (simulateCore e m s il mu dir cs dyn hc).avgPrice,
       mainPnLOf (finalPositionsOf cs (dirMult dir) tp w
          (simulateCore e m s il mu dir cs dyn hc)) +
         hedgePnLOf (finalPositionsOf cs (dirMult dir) tp w
          (simulateCore e m s il mu dir cs dyn hc)),
       mainPnLOf (finalPositionsOf cs (dirMult dir) tp w
          (simulateCore e m s il mu dir cs dyn hc)),
       hedgePnLOf (finalPositionsOf cs (dirMult dir) tp w
          (simulateCore e m s il mu dir cs dyn hc)),
       (simulateCore e m s il mu dir cs dyn hc).totalLot,
       if (simulateCore e m s il mu dir cs dyn hc).isHedged then
         (simulateCore e m s il mu dir cs dyn hc).hedgeLot else 0,
       netLotOf (dirMult dir) (simulateCore e m s il mu dir cs dyn hc),
       |e - m|,
       |e - (simulateCore e m s il mu dir cs dyn hc).avgPrice|,
       |m - netAvgPriceOf (simulateCore e m s il mu dir cs dyn hc)|,
       netAvgPriceOf (simulateCore e m s il mu dir cs dyn hc),
       (simulateCore e m s il mu dir cs dyn hc).isHedged,
       if (simulateCore e m s il mu dir cs dyn hc).isHedged then
         some (simulateCore e m s il mu dir cs dyn hc).hedgeTriggerPrice
       else none⟩ := by
  simp only [calculateSimulation, if_neg h]

/-- C4: at most one HEDGE record ever exists (exactly one when
`isHedged`), and every HEDGE record's `cumulativePnL` equals
`hedgeConfig.stopLossAmount` exactly (over ℚ, exact equality subsumes
the 1e-9 tolerance), independent of the computed trigger price. -/
theorem hedge_lock_exact (e m s il mu : ℚ) (dir : Direction) (cs : ℚ)
    (dyn : Bool) (hc : HedgeConfig) (w : Bool) (tp : ℚ) :
    countHedge (calculateSimulation e m s il mu dir cs dyn hc w tp).positions
      ≤ 1 ∧
    ((calculateSimulation e m s il mu dir cs dyn hc w tp).summary.isHedged =
        true →
      countHedge
        (calculateSimulation e m s il mu dir cs dyn hc w tp).positions = 1) ∧
    ∀ p ∈ (calculateSimulation e m s il mu dir cs dyn hc w tp).positions,
      p.type = PosType.HEDGE → p.cumPnL = hc.stopLossAmount := by
  by_cases hg : s ≤ 0 ∨ il ≤ 0 ∨ cs ≤ 0
  · rw [calculateSimulation_invalid e m s il mu dir cs dyn hc w tp hg]
    refine ⟨by norm_num [countHedge], ?_, ?_⟩
    · intro hcontra
      exact absurd hcontra (by simp [emptySummary])
    · intro p hp
      exact absurd hp (List.not_mem_nil p)
  · have hinv := hedgeInv_simulateCore e m s il mu dir cs dyn hc
    rw [calculateSimulation_positions_valid e m s il mu dir cs dyn hc w tp hg,
      calculateSimulation_summary_valid e m s il mu dir cs dyn hc w tp hg]
    refine ⟨?_, ?_, ?_⟩
    · rw [countHedge_finalPositionsOf]
      exact countHedge_le_one hinv
    · intro hh
      rw [countHedge_finalPositionsOf]
      exact (hinv.2 hh).1
    · intro p hp hpt
      obtain ⟨q, hq, hqt, -, hqc⟩ := mem_finalPositionsOf hp
      rw [hqc]
      exact hedgeInv_cumPnL hinv q hq (hqt.symm.trans hpt)

/-- Witness for C4 at the stop-loss -200 hedged run. -/
theorem hedge_lock_exact_witness :
    (calculateSimulation 2000 1950 10 (1/100) (7/5) Direction.LONG 100 false
      ⟨true, -200, 2, 2⟩ false 0).summary.isHedged = true ∧
    countHedge (calculateSimulation 2000 1950 10 (1/100) (7/5) Direction.LONG
      100 false ⟨true, -200, 2, 2⟩ false 0).positions = 1 :=
  ⟨by with_unfolding_all rfl,
   (hedge_lock_exact 2000 1950 10 (1/100) (7/5) Direction.LONG 100 false
      ⟨true, -200, 2, 2⟩ false 0).2.1 (by with_unfolding_all rfl)⟩

/-- C3: whenever the result is hedged, `summary.hedgeTriggerPrice` is
the analytic solution `avgPrice + stopLossAmount / (totalLot ×
contractSize × dirSign)` evaluated at the basket state frozen at the
crossing (which the summary itself reports, since accumulation stops
at the trigger), and every HEDGE record's entry price equals it too. -/
theorem hedge_trigger_price_analytic (e m s il mu : ℚ) (dir : Direction)
    (cs : ℚ) (dyn : Bool) (hc : HedgeConfig) (w : Bool) (tp : ℚ)
    (hh : (calculateSimulation e m s il mu dir cs dyn hc w tp).summary.isHedged
      = true) :
    (calculateSimulation e m s il mu dir cs dyn hc w tp).summary.hedgeTriggerPrice
      = some
        ((calculateSimulation e m s il mu dir cs dyn hc w tp).summary.avgPrice +
          hc.stopLossAmount /
            ((calculateSimulation e m s il mu dir cs dyn hc w tp).summary.totalLot
              * cs * dirMult dir)) ∧
    ∀ p ∈ (calculateSimulation e m s il mu dir cs dyn hc w tp).positions,
      p.type = PosType.HEDGE →
        p.price =
          (calculateSimulation e m s il mu dir cs dyn hc w tp).summary.avgPrice +
            hc.stopLossAmount /
              ((calculateSimulation e m s il mu dir cs dyn hc w tp).summary.totalLot
                * cs * dirMult dir) := by
  by_cases hg : s ≤ 0 ∨ il ≤ 0 ∨ cs ≤ 0
  · rw [calculateSimulation_invalid e m s il mu dir cs dyn hc w tp hg] at hh
    exact absurd hh (by simp [emptySummary])
  · have hinv := hedgeInv_simulateCore e m s il mu dir cs dyn hc
    rw [calculateSimulation_summary_valid e m s il mu dir cs dyn hc w tp hg]
      at hh
    rw [calculateSimulation_positions_valid e m s il mu dir cs dyn hc w tp hg,
      calculateSimulation_summary_valid e m s il mu dir cs dyn hc w tp hg]
    have hh' : (simulateCore e m s il mu dir cs dyn hc).isHedged = true := hh
    have h2 := hinv.2 hh'
    constructor
    · show (if (simulateCore e m s il mu dir cs dyn hc).isHedged then
        some (simulateCore e m s il mu dir cs dyn hc).hedgeTriggerPrice
        else none) = _
      rw [if_pos hh', h2.2.1]
    · intro p hp hpt
      obtain ⟨q, hq, hqt, hqp, -⟩ := mem_finalPositionsOf hp
      rw [hqp, hedgeInv_price hinv q hq (hqt.symm.trans hpt), h2.2.1]

/-- Witness for C3 at the stop-loss -200 hedged run: the trigger price
21500/11 equals avg + SL/(lot·cs·dir) = 21700/11 - 200/11. -/
theorem hedge_trigger_price_analytic_witness :
    (calculateSimulation 2000 1950 10 (1/100) (7/5) Direction.LONG 100 false
      ⟨true, -200, 2, 2⟩ false 0).summary.hedgeTriggerPrice =
      some ((calculateSimulation 2000 1950 10 (1/100) (7/5) Direction.LONG 100
          false ⟨true, -200, 2, 2⟩ false 0).summary.avgPrice +
        (-200 : ℚ) /
          ((calculateSimulation 2000 1950 10 (1/100) (7/5) Direction.LONG 100
            false ⟨true, -200, 2, 2⟩ false 0).summary.totalLot * 100 *
              dirMult Direction.LONG)) :=
  (hedge_trigger_price_analytic 2000 1950 10 (1/100) (7/5) Direction.LONG 100
    false ⟨true, -200, 2, 2⟩ false 0 (by with_unfolding_all rfl)).1

/-- C2 amended: the hedge record's entry price is always the analytic
trigger price reported as `summary.hedgeTriggerPrice`, not the price
at which the crossing was detected; the candidate's price (or the
boundary) only serves as the detection mark of the crossing. -/
theorem hedge_record_price_is_trigger (e m s il mu : ℚ) (dir : Direction)
    (cs : ℚ) (dyn : Bool) (hc : HedgeConfig) (w : Bool) (tp : ℚ) :
    ∀ p ∈ (calculateSimulation e m s il mu dir cs dyn hc w tp).positions,
      p.type = PosType.HEDGE →
        some p.price =
          (calculateSimulation e m s il mu dir cs dyn hc w tp).summary.hedgeTriggerPrice := by
  by_cases hg : s ≤ 0 ∨ il ≤ 0 ∨ cs ≤ 0
  · rw [calculateSimulation_invalid e m s il mu dir cs dyn hc w tp hg]
    intro p hp
    exact absurd hp (List.not_mem_nil p)
  · have hinv := hedgeInv_simulateCore e m s il mu dir cs dyn hc
    rw [calculateSimulation_positions_valid e m s il mu dir cs dyn hc w tp hg,
      calculateSimulation_summary_valid e m s il mu dir cs dyn hc w tp hg]
    intro p hp hpt
    obtain ⟨q, hq, hqt, hqp, -⟩ := mem_finalPositionsOf hp
    by_cases hsh : (simulateCore e m s il mu dir cs dyn hc).isHedged = true
    · show some p.price = (if (simulateCore e m s il mu dir cs dyn hc).isHedged
        then some (simulateCore e m s il mu dir cs dyn hc).hedgeTriggerPrice
        else none)
      rw [if_pos hsh, hqp,
        hedgeInv_price hinv q hq (hqt.symm.trans hpt)]
    · have hf : (simulateCore e m s il mu dir cs dyn hc).isHedged = false := by
        cases hb : (simulateCore e m s il mu dir cs dyn hc).isHedged
        · rfl
        · exact absurd hb hsh
      exact absurd (hqt.symm.trans hpt)
        (countHedge_eq_zero _ (hinv.1 hf) q hq)

/-- Witness for the amended C2: in the stop-loss -200 run the sixth
record is the HEDGE one and its price is the reported trigger. -/
theorem hedge_record_price_is_trigger_witness :
    some ((21500 : ℚ)/11) = detectionRun.summary.hedgeTriggerPrice := by
  have hlen : detectionRun.positions.length = 6 := by with_unfolding_all rfl
  have h5 : 5 < detectionRun.positions.length := by
    rw [hlen]
    norm_num
  have hty : (detectionRun.positions.get ⟨5, h5⟩).type = PosType.HEDGE := by
    with_unfolding_all rfl
  have hpr : (detectionRun.positions.get ⟨5, h5⟩).price = 21500/11 := by
    with_unfolding_all rfl
  rw [← hpr]
  exact hedge_record_price_is_trigger 2000 1950 10 (1/100) (7/5) Direction.LONG
    100 false ⟨true, -200, 2, 2⟩ false 0 _
    (List.get_mem detectionRun.positions 5 h5) hty

theorem stripIndiv_overlay (cs dm x : ℚ) (p : Position) :
    stripIndiv (overlayPosition cs dm x p) = stripIndiv p := by
  unfold stripIndiv overlayPosition
  split <;> rfl

theorem map_strip_overlay (cs dm x : ℚ) (l : List Position) :
    (l.map (overlayPosition cs dm x)).map stripIndiv = l.map stripIndiv := by
  induction l with
  | nil => rfl
  | cons p t ih => simp only [List.map_cons, ih, stripIndiv_overlay]

theorem overlay_indivPnL (cs dm x : ℚ) (p : Position) :
    (overlayPosition cs dm x p).indivPnL =
      (x - p.price) * p.lot * cs *
        (if p.type = PosType.HEDGE then -dm else dm) := by
  unfold overlayPosition
  by_cases h : p.type = PosType.HEDGE
  · rw [if_pos h, if_pos h]
  · rw [if_neg h, if_neg h]

theorem slot_map_overlay (cs dm x : ℚ) (l : List Position) :
    ((l.map (overlayPosition cs dm x)).filter
        fun p => p.type ≠ PosType.HEDGE).length =
      (l.filter fun p => p.type ≠ PosType.HEDGE).length := by
  rw [List.filter_map, List.length_map]
  congr 1
  apply List.filter_congr
  intro p _
  simp [Function.comp, overlayPosition_type]

/-- C9: switching win mode on recomputes only `individualPnL` and the
aggregate P&L summary fields; every retained position agrees with the
non-win-mode run on all other fields (in particular `cumulativePnL`),
the non-P&L summary fields agree, and the re-mark happens at
`exitPrice = netAveragePrice + targetProfitDistance·dirSign`, with the
HEDGE record marked using the opposite sign. -/
theorem winmode_frame (e m s il mu : ℚ) (dir : Direction) (cs : ℚ)
    (dyn : Bool) (hc : HedgeConfig) (tp : ℚ) :
    ((calculateSimulation e m s il mu dir cs dyn hc true tp).positions.map
        stripIndiv =
      (calculateSimulation e m s il mu dir cs dyn hc false tp).positions.map
        stripIndiv) ∧
    (∀ p ∈ (calculateSimulation e m s il mu dir cs dyn hc true tp).positions,
      p.indivPnL =
        ((calculateSimulation e m s il mu dir cs dyn hc true tp).summary.netAvgPrice
            + tp * dirMult dir - p.price) * p.lot * cs *
          (if p.type = PosType.HEDGE then -(dirMult dir) else dirMult dir)) ∧
    (calculateSimulation e m s il mu dir cs dyn hc true tp).summary.slot =
      (calculateSimulation e m s il mu dir cs dyn hc false tp).summary.slot ∧
    (calculateSimulation e m s il mu dir cs dyn hc true tp).summary.avgPrice =
      (calculateSimulation e m s il mu dir cs dyn hc false tp).summary.avgPrice ∧
    (calculateSimulation e m s il mu dir cs dyn hc true tp).summary.totalLot =
      (calculateSimulation e m s il mu dir cs dyn hc false tp).summary.totalLot ∧
    (calculateSimulation e m s il mu dir cs dyn hc true tp).summary.hedgeLot =
      (calculateSimulation e m s il mu dir cs dyn hc false tp).summary.hedgeLot ∧
    (calculateSimulation e m s il mu dir cs dyn hc true tp).summary.netLot =
      (calculateSimulation e m s il mu dir cs dyn hc false tp).summary.netLot ∧
    (calculateSimulation e m s il mu dir cs dyn hc true tp).summary.rangeCovered =
      (calculateSimulation e m s il mu dir cs dyn hc false tp).summary.rangeCovered ∧
    (calculateSimulation e m s il mu dir cs dyn hc true tp).summary.beDistance =
      (calculateSimulation e m s il mu dir cs dyn hc false tp).summary.beDistance ∧
    (calculateSimulation e m s il mu dir cs dyn hc true tp).summary.recoveryGap =
      (calculateSimulation e m s il mu dir cs dyn hc false tp).summary.recoveryGap ∧
    (calculateSimulation e m s il mu dir cs dyn hc true tp).summary.netAvgPrice =
      (calculateSimulation e m s il mu dir cs dyn hc false tp).summary.netAvgPrice ∧
    (calculateSimulation e m s il mu dir cs dyn hc true tp).summary.isHedged =
      (calculateSimulation e m s il mu dir cs dyn hc false tp).summary.isHedged ∧
    (calculateSimulation e m s il mu dir cs dyn hc true tp).summary.hedgeTriggerPrice =
      (calculateSimulation e m s il mu dir cs dyn hc false tp).summary.hedgeTriggerPrice := by
  by_cases hg : s ≤ 0 ∨ il ≤ 0 ∨ cs ≤ 0
  · rw [calculateSimulation_invalid e m s il mu dir cs dyn hc true tp hg,
      calculateSimulation_invalid e m s il mu dir cs dyn hc false tp hg]
    refine ⟨rfl, ?_, rfl, rfl, rfl, rfl, rfl, rfl, rfl, rfl, rfl, rfl, rfl⟩
    intro p hp
    exact absurd hp (List.not_mem_nil p)
  · rw [calculateSimulation_positions_valid e m s il mu dir cs dyn hc true tp hg,
      calculateSimulation_positions_valid e m s il mu dir cs dyn hc false tp hg,
      calculateSimulation_summary_valid e m s il mu dir cs dyn hc true tp hg,
      calculateSimulation_summary_valid e m s il mu dir cs dyn hc false tp hg]
    refine ⟨?_, ?_, ?_, rfl, rfl, rfl, rfl, rfl, rfl, rfl, rfl, rfl, rfl⟩
    · show ((simulateCore e m s il mu dir cs dyn hc).positions.map
        (overlayPosition cs (dirMult dir) _)).map stripIndiv =
        (simulateCore e m s il mu dir cs dyn hc).positions.map stripIndiv
      exact map_strip_overlay cs (dirMult dir) _ _
    · intro p hp
      have hp' : p ∈ (simulateCore e m s il mu dir cs dyn hc).positions.map
          (overlayPosition cs (dirMult dir)
            (netAvgPriceOf (simulateCore e m s il mu dir cs dyn hc) +
              tp * dirMult dir)) := hp
      obtain ⟨q, hq, rfl⟩ := List.mem_map.mp hp'
      rw [overlay_indivPnL, overlayPosition_price, overlayPosition_type,
        overlayPosition_lot]
    · show ((finalPositionsOf cs (dirMult dir) tp true
          (simulateCore e m s il mu dir cs dyn hc)).filter
            fun p => p.type ≠ PosType.HEDGE).length = _
      unfold finalPositionsOf
      rw [if_pos rfl]
      exact slot_map_overlay cs (dirMult dir) _ _

/-- Witness for C9 at Scenario A's configuration with a 20-point
profit target. -/
theorem winmode_frame_witness :
    (calculateSimulation 2000 1950 10 (1/100) (7/5) Direction.LONG 100 false
        ⟨false, 0, 2, 2⟩ true 20).positions.map stripIndiv =
      (calculateSimulation 2000 1950 10 (1/100) (7/5) Direction.LONG 100 false
        ⟨false, 0, 2, 2⟩ false 20).positions.map stripIndiv :=
  (winmode_frame 2000 1950 10 (1/100) (7/5) Direction.LONG 100 false
    ⟨false, 0, 2, 2⟩ 20).1

theorem normalizeLot_nonneg {x : ℚ} (hx : 0 ≤ x) : 0 ≤ normalizeLot x := by
  unfold normalizeLot
  have h1 : (0 : ℤ) ≤ round (x * 100) := by
    rw [round_eq]
    have h2 : ((0 : ℚ) + 1/2) ≤ x * 100 + 1/2 := by nlinarith
    calc (0 : ℤ) = ⌊(0 : ℚ) + 1/2⌋ := by norm_num
      _ ≤ ⌊x * 100 + 1/2⌋ := Int.floor_le_floor h2
  exact div_nonneg (by exact_mod_cast h1) (by norm_num)

theorem normalizeLot_int (n : ℤ) : normalizeLot ((n : ℚ)/100) = (n : ℚ)/100 := by
  unfold normalizeLot
  rw [div_mul_cancel₀ _ (by norm_num : (100 : ℚ) ≠ 0), round_intCast]

/-- Prefix cost-basis conservation over a list of recorded fills. -/
def PrefixOk (l : List Position) : Prop :=
  ∀ i (h : i < l.length),
    (l.get ⟨i, h⟩).avgPrice * (l.get ⟨i, h⟩).totalLot = sumPL (l.take (i + 1))

/-- Cost-basis bookkeeping maintained by the accumulation loop: the
running average times the rounded running lot equals the unrounded
running cost, the running lot is a nonnegative multiple of 0.01, the
running cost is the price×lot sum over the recorded non-hedge fills,
and every recorded prefix satisfies the conservation law. -/
structure CostInv (st : AccState) : Prop where
  conserve : st.avgPrice * st.totalLot = st.totalCost
  nonneg : 0 ≤ st.totalLot
  grid : ∃ n : ℤ, st.totalLot = (n : ℚ)/100
  costSum : st.totalCost = sumPL (nonHedge st.positions)
  prefixOk : PrefixOk (nonHedge st.positions)

theorem sumPL_append_singleton (l : List Position) (p : Position) :
    sumPL (l ++ [p]) = sumPL l + p.price * p.lot := by
  simp [sumPL]

theorem nonHedge_append (l₁ l₂ : List Position) :
    nonHedge (l₁ ++ l₂) = nonHedge l₁ ++ nonHedge l₂ := by
  simp [nonHedge]

theorem prefixOk_append {l : List Position} {p : Position}
    (hl : PrefixOk l) (hp : p.avgPrice * p.totalLot = sumPL (l ++ [p])) :
    PrefixOk (l ++ [p]) := by
  intro i h
  have hlen : i < l.length + 1 := by
    simpa using h
  by_cases hi : i < l.length
  · have hget : (l ++ [p]).get ⟨i, h⟩ = l.get ⟨i, hi⟩ := by
      simp [List.getElem_append_left hi]
    have htake : (l ++ [p]).take (i + 1) = l.take (i + 1) := by
      exact List.take_append_of_le_length hi
    rw [hget, htake]
    exact hl i hi
  · have hi' : i = l.length := by omega
    have hget : (l ++ [p]).get ⟨i, h⟩ = p := by
      subst hi'
      simp
    have htake : (l ++ [p]).take (i + 1) = l ++ [p] := by
      apply List.take_of_length_le
      simp [hi']
    rw [hget, htake]
    exact hp

theorem costInv_fireHedge (hid : String) (e m cs dm : ℚ) (hc : HedgeConfig)
    (st : AccState) (hinv : CostInv st) :
    CostInv (fireHedge hid e m cs dm hc st) := by
  have hlist : nonHedge (fireHedge hid e m cs dm hc st).positions =
      nonHedge st.positions := by
    show nonHedge (st.positions ++ [_]) = nonHedge st.positions
    rw [nonHedge_append]
    simp [nonHedge]
  exact ⟨hinv.conserve, hinv.nonneg, hinv.grid,
    by rw [hlist]; exact hinv.costSum,
    by rw [hlist]; exact hinv.prefixOk⟩

theorem costInv_fillOrder (e m cs dm : ℚ) (o : Order) (st : AccState)
    (hlot0 : 0 ≤ o.lot) (hgrid : ∃ n : ℤ, o.lot = (n : ℚ)/100)
    (honh : o.type ≠ PosType.HEDGE)
    (hinv : CostInv st) : CostInv (fillOrder e m cs dm o st) := by
  obtain ⟨a, ha⟩ := hinv.grid
  obtain ⟨b, hb⟩ := hgrid
  have hsumint : st.totalLot + o.lot = ((a + b : ℤ) : ℚ)/100 := by
    rw [ha, hb]
    push_cast
    ring
  have hnl : normalizeLot (st.totalLot + o.lot) = st.totalLot + o.lot := by
    rw [hsumint, normalizeLot_int]
  have hnn : 0 ≤ st.totalLot + o.lot := add_nonneg hinv.nonneg hlot0
  have hcons : (st.totalCost + o.price * o.lot) /
      normalizeLot (st.totalLot + o.lot) *
      normalizeLot (st.totalLot + o.lot) =
      st.totalCost + o.price * o.lot := by
    by_cases hz : st.totalLot + o.lot = 0
    · have hL : st.totalLot = 0 := by linarith [hinv.nonneg, hlot0]
      have hlz : o.lot = 0 := by linarith [hinv.nonneg, hlot0]
      have hc0 : st.totalCost = 0 := by
        have hcc := hinv.conserve
        rw [hL, mul_zero] at hcc
        linarith
      rw [hnl, hz, hc0, hlz]
      norm_num
    · rw [hnl]
      exact div_mul_cancel₀ _ hz
  have hcost : (fillOrder e m cs dm o st).totalCost =
      st.totalCost + o.price * o.lot := rfl
  have hlistEq : nonHedge (fillOrder e m cs dm o st).positions =
      nonHedge st.positions ++
        [⟨o.type.str ++ "-" ++ o.label, o.type, o.label, o.price, o.lot,
          normalizeLot (st.totalLot + o.lot),
          (st.totalCost + o.price * o.lot) / normalizeLot (st.totalLot + o.lot),
          |e - o.price|, calcSinglePnL cs dm m o.price o.lot,
          calcBasketPnL cs dm o.price
            ((st.totalCost + o.price * o.lot) /
              normalizeLot (st.totalLot + o.lot))
            (normalizeLot (st.totalLot + o.lot))⟩] := by
    show nonHedge (st.positions ++ [_]) = _
    rw [nonHedge_append]
    congr 1
    simp [nonHedge, honh]
  refine ⟨?_, ?_, ?_, ?_, ?_⟩
  · exact hcons
  · show 0 ≤ normalizeLot (st.totalLot + o.lot)
    rw [hnl]
    exact hnn
  · exact ⟨a + b, by rw [show (fillOrder e m cs dm o st).totalLot =
      normalizeLot (st.totalLot + o.lot) from rfl, hnl, hsumint]⟩
  · rw [hlistEq, sumPL_append_singleton]
    show st.totalCost + o.price * o.lot = sumPL (nonHedge st.positions) + _
    rw [← hinv.costSum]
  · rw [hlistEq]
    apply prefixOk_append hinv.prefixOk
    show (st.totalCost + o.price * o.lot) /
        normalizeLot (st.totalLot + o.lot) *
        normalizeLot (st.totalLot + o.lot) = _
    rw [hcons, sumPL_append_singleton, ← hinv.costSum]

theorem costInv_walk (e m cs dm : ℚ) (isLong : Bool) (hc : HedgeConfig)
    (os : List Order) (st : AccState)
    (hos : ∀ o ∈ os, (0 ≤ o.lot ∧ ∃ n : ℤ, o.lot = (n : ℚ)/100) ∧
      o.type ≠ PosType.HEDGE)
    (hinv : CostInv st) : CostInv (walk e m cs dm isLong hc os st) := by
  induction os generalizing st with
  | nil => exact hinv
  | cons o rest ih =>
    unfold walk
    by_cases hbreak : (if isLong then o.price < m else o.price > m)
    · rw [if_pos hbreak]
      exact hinv
    · rw [if_neg hbreak]
      by_cases htrig : hc.enabled ∧ st.isHedged = false ∧
          hc.stopLossAmount < 0 ∧ 0 < st.totalLot ∧
          calcBasketPnL cs dm o.price st.avgPrice st.totalLot ≤
            hc.stopLossAmount
      · rw [if_pos htrig]
        exact costInv_fireHedge "hedge-trigger" e m cs dm hc st hinv
      · rw [if_neg htrig]
        exact ih (fillOrder e m cs dm o st)
          (fun q hq => hos q (List.mem_cons_of_mem o hq))
          (costInv_fillOrder e m cs dm o st
            (hos o (List.mem_cons_self o rest)).1.1
            (hos o (List.mem_cons_self o rest)).1.2
            (hos o (List.mem_cons_self o rest)).2 hinv)

theorem mainLadder_lot_props (e m s il mu : ℚ) (isLong : Bool)
    (hil : 0 ≤ il) (hmu : 0 ≤ mu) :
    ∀ o ∈ mainLadder e m s il mu isLong,
      0 ≤ o.lot ∧ ∃ n : ℤ, o.lot = (n : ℚ)/100 := by
  intro o ho
  simp only [mainLadder, List.mem_map, List.mem_range] at ho
  obtain ⟨i, -, rfl⟩ := ho
  constructor
  · show 0 ≤ normalizeLot (if i = 0 then il else il * mu ^ i)
    apply normalizeLot_nonneg
    split
    · exact hil
    · exact mul_nonneg hil (pow_nonneg hmu i)
  · exact ⟨round ((if i = 0 then il else il * mu ^ i) * 100), rfl⟩

theorem dynLadder_lot_props (e m s il mu : ℚ) (isLong : Bool)
    (hil : 0 ≤ il) (hmu : 0 ≤ mu) :
    ∀ o ∈ dynLadder e m s il mu isLong,
      0 ≤ o.lot ∧ ∃ n : ℤ, o.lot = (n : ℚ)/100 := by
  intro o ho
  simp only [dynLadder, List.mem_map, List.mem_range] at ho
  obtain ⟨i, -, rfl⟩ := ho
  constructor
  · show 0 ≤ normalizeLot (il * mu ^ (i + 2))
    exact normalizeLot_nonneg (mul_nonneg hil (pow_nonneg hmu (i + 2)))
  · exact ⟨round (il * mu ^ (i + 2) * 100), rfl⟩

theorem buildOrders_lot_props (e m s il mu : ℚ) (isLong dyn : Bool)
    (hil : 0 ≤ il) (hmu : 0 ≤ mu) :
    ∀ o ∈ buildOrders e m s il mu isLong dyn,
      0 ≤ o.lot ∧ ∃ n : ℤ, o.lot = (n : ℚ)/100 := by
  intro o ho
  rcases List.mem_append.mp (buildOrders_mem e m s il mu isLong dyn o ho) with
    hmain | hdyn
  · exact mainLadder_lot_props e m s il mu isLong hil hmu o hmain
  · cases dyn with
    | false =>
      rw [if_neg (by simp)] at hdyn
      exact absurd hdyn (List.not_mem_nil o)
    | true =>
      rw [if_pos rfl] at hdyn
      exact dynLadder_lot_props e m s il mu isLong hil hmu o hdyn

theorem costInv_initial (e : ℚ) : CostInv (initialState e) := by
  refine ⟨?_, le_refl 0, ⟨0, by norm_num [initialState]⟩, rfl, ?_⟩
  · show e * 0 = 0
    exact mul_zero e
  · intro i h
    simp [initialState, nonHedge] at h

theorem costInv_simulateCore (e m s il mu : ℚ) (dir : Direction) (cs : ℚ)
    (dyn : Bool) (hc : HedgeConfig) (hil : 0 ≤ il) (hmu : 0 ≤ mu) :
    CostInv (simulateCore e m s il mu dir cs dyn hc) := by
  have hw := costInv_walk e m cs (dirMult dir) dir.isLong hc
    (buildOrders e m s il mu dir.isLong dyn) (initialState e)
    (fun o ho => ⟨buildOrders_lot_props e m s il mu dir.isLong dyn hil hmu o ho,
      buildOrders_type_ne_hedge e m s il mu dir.isLong dyn o ho⟩)
    (costInv_initial e)
  simp only [simulateCore]
  split
  · exact costInv_fireHedge "hedge-final" e m cs (dirMult dir) hc _ hw
  · exact hw

theorem nonHedge_map_overlay (cs dm x : ℚ) (l : List Position) :
    nonHedge (l.map (overlayPosition cs dm x)) =
      (nonHedge l).map (overlayPosition cs dm x) := by
  unfold nonHedge
  rw [List.filter_map]
  congr 1
  apply List.filter_congr
  intro p _
  simp [Function.comp, overlayPosition_type]

theorem sumPL_map_overlay (cs dm x : ℚ) (l : List Position) :
    sumPL (l.map (overlayPosition cs dm x)) = sumPL l := by
  unfold sumPL
  rw [List.map_map]
  congr 1
  apply List.map_congr_left
  intro p _
  simp [Function.comp, overlayPosition_price, overlayPosition_lot]

theorem prefixOk_map_overlay (cs dm x : ℚ) {l : List Position}
    (hl : PrefixOk l) : PrefixOk (l.map (overlayPosition cs dm x)) := by
  intro i h
  have h' : i < l.length := by
    simpa using h
  simp only [List.get_eq_getElem, List.getElem_map]
  rw [overlayPosition_avgPrice, overlayPosition_totalLot,
    ← List.map_take, sumPL_map_overlay]
  have := hl i h'
  simpa using this

/-- The all-lots-round-to-zero run, owned by claim C8: the valid
initial lot 0.004 (with multiplier 1) rounds to 0.00 at every rung. -/
def zeroLotRun : SimulationResult :=
  calculateSimulation 2000 1950 10 (1/250) 1 Direction.LONG 100 false
    ⟨false, 0, 2, 2⟩ false 0

set_option maxRecDepth 40000 in
/-- C8 counterexample: with initialLot = 0.004 and multiplier = 1 —
inside the claim's input domain — every rung lot rounds to 0, so all
six recorded fills carry `totalLotAfter = 0` and the defining division
`currentTotalCost / currentTotalLot` of the source is the float 0/0 =
NaN: `avgPriceAfter` is NaN, `avgPriceAfter × totalLotAfter` is NaN,
and the claimed equality (within 1e-6) fails on the program. The ℚ
model, whose division by zero returns 0, makes the zero denominator
explicit: six non-hedge fills, each with lot 0, totalLotAfter 0, and
collapsed average 0. -/
theorem cost_basis_zero_lot_counterexample :
    normalizeLot (1/250) = 0 ∧
    (nonHedge zeroLotRun.positions).length = 6 ∧
    (nonHedge zeroLotRun.positions).map Position.lot = [0, 0, 0, 0, 0, 0] ∧
    (nonHedge zeroLotRun.positions).map Position.totalLot =
      [0, 0, 0, 0, 0, 0] ∧
    (nonHedge zeroLotRun.positions).map Position.avgPrice =
      [0, 0, 0, 0, 0, 0] := by
  refine ⟨?_, ?_, ?_, ?_, ?_⟩ <;> with_unfolding_all rfl

/-- C8 amended: for every prefix of the retained non-hedge positions
whose last `totalLotAfter` is nonzero, `avgPriceAfter × totalLotAfter`
equals the unrounded sum of `price × lot` over that prefix — exactly,
over ℚ (subsuming the 1e-6 tolerance) — for every run within the
declared input domain (`lotMultiplier > 0`). When `totalLotAfter = 0`
the source's average is the float 0/0 = NaN and no conservation holds
there (see the counterexample). -/
theorem cost_basis_conservation (e m s il mu : ℚ) (dir : Direction) (cs : ℚ)
    (dyn : Bool) (hc : HedgeConfig) (w : Bool) (tp : ℚ) (hmu : 0 < mu) :
    ∀ i (h : i < (nonHedge
        (calculateSimulation e m s il mu dir cs dyn hc w tp).positions).length),
      ((nonHedge (calculateSimulation e m s il mu dir cs dyn hc w tp).positions).get
          ⟨i, h⟩).totalLot ≠ 0 →
      ((nonHedge (calculateSimulation e m s il mu dir cs dyn hc w tp).positions).get
          ⟨i, h⟩).avgPrice *
        ((nonHedge (calculateSimulation e m s il mu dir cs dyn hc w tp).positions).get
          ⟨i, h⟩).totalLot =
        sumPL ((nonHedge
          (calculateSimulation e m s il mu dir cs dyn hc w tp).positions).take
            (i + 1)) := by
  by_cases hg : s ≤ 0 ∨ il ≤ 0 ∨ cs ≤ 0
  · rw [calculateSimulation_invalid e m s il mu dir cs dyn hc w tp hg]
    intro i h
    simp [nonHedge] at h
  · have hil : 0 ≤ il := by
      push_neg at hg
      exact le_of_lt hg.2.1
    have hinv := costInv_simulateCore e m s il mu dir cs dyn hc hil hmu.le
    rw [calculateSimulation_positions_valid e m s il mu dir cs dyn hc w tp hg]
    have hall : PrefixOk (nonHedge (finalPositionsOf cs (dirMult dir) tp w
        (simulateCore e m s il mu dir cs dyn hc))) := by
      cases w with
      | false => exact hinv.prefixOk
      | true =>
        show PrefixOk (nonHedge
          ((simulateCore e m s il mu dir cs dyn hc).positions.map
            (overlayPosition cs (dirMult dir) _)))
        rw [nonHedge_map_overlay]
        exact prefixOk_map_overlay cs (dirMult dir) _ hinv.prefixOk
    intro i h _
    exact hall i h

set_option maxRecDepth 40000 in
/-- Witness for C8: in Scenario A the sixth fill has nonzero total lot
0.16 and avg×lot = 1965.625 × 0.16 = 314.5, the exact cost of the six
rungs. -/
theorem cost_basis_conservation_witness :
    ((nonHedge (calculateSimulation 2000 1950 10 (1/100) (7/5) Direction.LONG
        100 false ⟨false, 0, 2, 2⟩ false 0).positions).getD 5
      ⟨"", PosType.ENTRY, "", 0, 0, 0, 0, 0, 0, 0⟩).totalLot = 4/25 ∧
    ((nonHedge (calculateSimulation 2000 1950 10 (1/100) (7/5) Direction.LONG
        100 false ⟨false, 0, 2, 2⟩ false 0).positions).getD 5
      ⟨"", PosType.ENTRY, "", 0, 0, 0, 0, 0, 0, 0⟩).avgPrice *
      ((nonHedge (calculateSimulation 2000 1950 10 (1/100) (7/5) Direction.LONG
        100 false ⟨false, 0, 2, 2⟩ false 0).positions).getD 5
      ⟨"", PosType.ENTRY, "", 0, 0, 0, 0, 0, 0, 0⟩).totalLot =
      sumPL ((nonHedge (calculateSimulation 2000 1950 10 (1/100) (7/5)
        Direction.LONG 100 false ⟨false, 0, 2, 2⟩ false 0).positions).take 6) := by
  have hlen : (nonHedge (calculateSimulation 2000 1950 10 (1/100) (7/5)
      Direction.LONG 100 false ⟨false, 0, 2, 2⟩ false 0).positions).length = 6 := by
    with_unfolding_all rfl
  have h5 : 5 < (nonHedge (calculateSimulation 2000 1950 10 (1/100) (7/5)
      Direction.LONG 100 false ⟨false, 0, 2, 2⟩ false 0).positions).length := by
    rw [hlen]
    norm_num
  have hlot : ((nonHedge (calculateSimulation 2000 1950 10 (1/100) (7/5)
      Direction.LONG 100 false ⟨false, 0, 2, 2⟩ false 0).positions).get
        ⟨5, h5⟩).totalLot = 4/25 := by
    with_unfolding_all rfl
  constructor
  · rw [List.getD_eq_getElem _ _ h5]
    exact hlot
  · rw [List.getD_eq_getElem _ _ h5]
    exact cost_basis_conservation 2000 1950 10 (1/100) (7/5) Direction.LONG 100
      false ⟨false, 0, 2, 2⟩ false 0 (by norm_num) 5 h5
      (by rw [hlot]; norm_num)
